import Mathlib

/-!
# Verification of the work-nz desktop workspace manager

Shallow embedding of the backend command layer of the work-nz repository
(a Tauri + Vue desktop workspace manager) together with the parts of the
frontend handlers that the verified properties depend on.  Pure functions
from the sources are translated into Lean functions; stateful commands are
modelled as explicit state-passing functions.  Backend commands whose Rust
implementation is not part of the frontend sources are modelled from the
specification; each such definition is marked `Modelled from the spec:` in
its doc comment.
-/

namespace WorkNZ

/-! ## IDE launcher (source: `open_in_ide`, skill doc `tauri-windows-ide-launcher`)

The Rust launcher builds each process argument by replacing every
occurrence of the placeholder `{path}` inside one template string with the
target path (`a.replace("{path}", &path_str)`), then spawns the executable
with the resulting argument list via `Command::new(command).args(args)`:
discrete arguments, never a concatenated shell string. -/

/-- Replace every non-overlapping occurrence of `pat` in `s` by `rep`,
scanning left to right — the semantics of Rust `str::replace` for a
non-empty pattern. -/
def replaceAll (pat rep : List Char) : List Char → List Char
  | [] => []
  | c :: rest =>
    if pat.isPrefixOf (c :: rest) then
      rep ++ replaceAll pat rep (rest.drop (pat.length - 1))
    else
      c :: replaceAll pat rep rest
termination_by s => s.length
decreasing_by
  · simp only [List.length_drop, List.length_cons]
    omega
  · simp only [List.length_cons]
    omega

/-- The placeholder token recognised in IDE argument templates. -/
def pathPlaceholder : List Char := "{path}".data

/-- Substitution of the target path into a single template argument:
Rust `a.replace("{path}", &path_str)`. -/
def substPath (a pathStr : String) : String :=
  ⟨replaceAll pathPlaceholder pathStr.data a.data⟩

/-- A process-creation request: an executable plus a list of discrete
arguments (the shape handed to `Command::new(command).args(args)`); no
single concatenated command string exists anywhere in this model. -/
structure SpawnCall where
  exe : String
  args : List String
deriving DecidableEq, Repr

/-- The launcher from the source: substitute the path into every template
argument and spawn the executable with the resulting discrete argument
list. -/
def open_in_ide (command : String) (argsTemplate : List String)
    (projectPath : String) : SpawnCall :=
  { exe := command
    args := argsTemplate.map (fun a => substPath a projectPath) }

/-- Whether `pat` occurs as a contiguous subsequence of `s`. -/
def hasOccurrence (pat : List Char) : List Char → Bool
  | [] => false
  | c :: rest => pat.isPrefixOf (c :: rest) || hasOccurrence pat rest

/-! ## Filesystem browser: path containment (spec-modelled) -/

/-- The error taxonomy of the filesystem commands, from the spec's error
table (§6/§7). -/
inductive FsError
  | PathOutsideProject
  | NotFound
  | FileTooLarge
deriving DecidableEq, Repr

/-- The structured `\x7bok, message?\x7d` payload (`FsResult` in
`src/types/index.ts`). -/
structure FsResultM where
  ok : Bool
  message : Option String
deriving DecidableEq, Repr

/-- A user-supplied path: an absolute flag (absolute-path injection) plus
raw segments which may contain `""`, `"."` and `".."`. -/
structure RawPath where
  absolute : Bool
  segs : List String
deriving DecidableEq, Repr

/-- Modelled from the spec: normalization of raw path segments against an
accumulated absolute path — `""` and `"."` are dropped, `".."` pops the
last resolved segment (resolving above the filesystem root is rejected),
and any other segment descends. -/
def normSegs : List String → List String → Option (List String)
  | acc, [] => some acc
  | acc, s :: rest =>
    if s = "" ∨ s = "." then normSegs acc rest
    else if s = ".." then
      match acc with
      | [] => none
      | _ :: _ => normSegs acc.dropLast rest
    else normSegs (acc ++ [s]) rest

/-- Modelled from the spec: resolve a user path against the project root —
an absolute path ignores the root (injection attempt), a relative path
starts from the root; `..` segments are resolved before any check. -/
def resolveUnder (root : List String) (p : RawPath) : Option (List String) :=
  normSegs (if p.absolute then [] else root) p.segs

/-- Modelled from the spec: the containment check — the fully resolved path
must still be a descendant of (or equal to) the project root. -/
def containedIn (root : List String) (p : RawPath) : Bool :=
  match resolveUnder root p with
  | some q => root.isPrefixOf q
  | none => false

/-- The kind of a filesystem node (`FileNode.kind` in
`src/types/index.ts`). -/
inductive NodeKind
  | file
  | dir
deriving DecidableEq, Repr

/-- One child entry of a directory listing (one lazy level of
`FileNode`). -/
structure TreeNodeM where
  name : String
  kind : NodeKind
deriving DecidableEq, Repr

/-- The on-disk state visible to the filesystem commands: the set of
directories and the set of files (absolute segment paths) with their text
content. -/
structure Fs where
  dirs : List (List String)
  files : List (List String × String)
deriving DecidableEq, Repr

/-- One level of children of the directory `q` (lazy tree expansion). -/
def childrenAt (fs : Fs) (q : List String) : List TreeNodeM :=
  fs.dirs.filterMap (fun d =>
    if d.dropLast = q ∧ d ≠ [] then
      (d.getLast?).map (fun n => ⟨n, NodeKind.dir⟩)
    else none) ++
  fs.files.filterMap (fun f =>
    if f.1.dropLast = q ∧ f.1 ≠ [] then
      (f.1.getLast?).map (fun n => ⟨n, NodeKind.file⟩)
    else none)

/-- Modelled from the spec: `project_fs_tree` — resolve and contain the
relative root, then list one level of children; the returned trace records
every on-disk path the command touched. -/
def fs_tree (root : List String) (relativeRoot : RawPath) (fs : Fs) :
    Except FsError (List TreeNodeM) × List (List String) :=
  match resolveUnder root relativeRoot with
  | none => (Except.error FsError.PathOutsideProject, [])
  | some q =>
    if root.isPrefixOf q then
      if fs.dirs.contains q then (Except.ok (childrenAt fs q), [q])
      else (Except.error FsError.NotFound, [q])
    else (Except.error FsError.PathOutsideProject, [])

/-- The size bound on text preview reads (the spec fixes only that a bound
exists; oversized files fail with `FileTooLarge`). -/
def maxReadSize : Nat := 1048576

/-- Modelled from the spec: `fs_read_text` — containment check, then read
the file's content, bounded by `maxReadSize`. -/
def fs_read_text (root : List String) (p : RawPath) (fs : Fs) :
    Except FsError String × List (List String) :=
  match resolveUnder root p with
  | none => (Except.error FsError.PathOutsideProject, [])
  | some q =>
    if root.isPrefixOf q then
      match fs.files.find? (fun f => decide (f.1 = q)) with
      | some f =>
        if f.2.length ≤ maxReadSize then (Except.ok f.2, [q])
        else (Except.error FsError.FileTooLarge, [q])
      | none => (Except.error FsError.NotFound, [q])
    else (Except.error FsError.PathOutsideProject, [])

/-- Modelled from the spec: `fs_create_dir` — containment check, then
create the directory, reporting already-exists as a structured `ok = false`
outcome rather than an error. -/
def fs_create_dir (root : List String) (p : RawPath) (fs : Fs) :
    Except FsError FsResultM × List (List String) × Fs :=
  match resolveUnder root p with
  | none => (Except.error FsError.PathOutsideProject, [], fs)
  | some q =>
    if root.isPrefixOf q then
      if fs.dirs.contains q then
        (Except.ok ⟨false, some "directory already exists"⟩, [q], fs)
      else (Except.ok ⟨true, none⟩, [q], { fs with dirs := fs.dirs ++ [q] })
    else (Except.error FsError.PathOutsideProject, [], fs)

/-- Modelled from the spec: `fs_delete` — containment check, then remove
the node (and, for a directory, everything under it), reporting not-found
as a structured `ok = false` outcome. -/
def fs_delete (root : List String) (p : RawPath) (fs : Fs) :
    Except FsError FsResultM × List (List String) × Fs :=
  match resolveUnder root p with
  | none => (Except.error FsError.PathOutsideProject, [], fs)
  | some q =>
    if root.isPrefixOf q then
      if fs.dirs.contains q ∨ fs.files.any (fun f => decide (f.1 = q)) then
        (Except.ok ⟨true, none⟩, [q],
          { dirs := fs.dirs.filter (fun d => !q.isPrefixOf d)
            files := fs.files.filter (fun f => !q.isPrefixOf f.1) })
      else (Except.ok ⟨false, some "not found"⟩, [q], fs)
    else (Except.error FsError.PathOutsideProject, [], fs)

/-- Rewrite an absolute path under `src` to the corresponding path under
`dst` (helper for `fs_rename`). -/
def rebase (src dst d : List String) : List String :=
  if src.isPrefixOf d then dst ++ d.drop src.length else d

/-- Modelled from the spec: `fs_rename` — both the old and the new path
must pass the containment check before any disk access happens; then every
node under the old path is moved under the new one. -/
def fs_rename (root : List String) (oldP newP : RawPath) (fs : Fs) :
    Except FsError FsResultM × List (List String) × Fs :=
  match resolveUnder root oldP with
  | none => (Except.error FsError.PathOutsideProject, [], fs)
  | some qo =>
    if root.isPrefixOf qo then
      match resolveUnder root newP with
      | none => (Except.error FsError.PathOutsideProject, [], fs)
      | some qn =>
        if root.isPrefixOf qn then
          if fs.dirs.contains qo ∨ fs.files.any (fun f => decide (f.1 = qo)) then
            (Except.ok ⟨true, none⟩, [qo, qn],
              { dirs := fs.dirs.map (rebase qo qn)
                files := fs.files.map (fun f => (rebase qo qn f.1, f.2)) })
          else (Except.ok ⟨false, some "not found"⟩, [qo], fs)
        else (Except.error FsError.PathOutsideProject, [], fs)
    else (Except.error FsError.PathOutsideProject, [], fs)

/-! ## Workspace store (source: `workspace_db_path`; recent index spec-modelled) -/

/-- One entry of the process-wide recent-workspaces index (`WorkspaceInfo`
in `src/types/index.ts`, with the user alias of the data model). -/
structure RecentEntry where
  path : String
  dbPath : String
  userAlias : Option String
  lastOpenedAt : Nat
deriving DecidableEq, Repr

/-- The `WorkspaceInfo` value returned to the frontend by
`workspace_init_or_open`. -/
structure WorkspaceInfoM where
  path : String
  dbPath : String
  lastOpenedAt : Nat
deriving DecidableEq, Repr

/-- The database path derived from a workspace root: the Rust helper
`workspace_db_path` joins the reserved subdirectory `.pm-app` and the file
`db.sqlite3` under the workspace root. -/
def workspace_db_path (workspaceRoot : String) : String :=
  workspaceRoot ++ "/.pm-app/db.sqlite3"

/-- Modelled from the spec: `workspace_init_or_open` — derives the
database path via `workspace_db_path`, opens/migrates the store, and
upserts the path into the recent-workspaces index with a refreshed
`lastOpenedAt` timestamp (an existing entry is updated in place; otherwise
a new entry is appended). -/
def initOrOpen (recent : List RecentEntry) (p : String) (now : Nat) :
    WorkspaceInfoM × List RecentEntry :=
  let db := workspace_db_path p
  if recent.any (fun e => e.path == p) then
    (⟨p, db, now⟩,
      recent.map (fun e => if e.path == p then { e with lastOpenedAt := now } else e))
  else
    (⟨p, db, now⟩, recent ++ [⟨p, db, none, now⟩])

/-! ## Git operations engine (spec-modelled) -/

/-- The kind of a long-running git operation. -/
inductive GitOpKind
  | clone
  | pull
deriving DecidableEq, Repr

/-- The state machine of one git operation
(`Idle -> Running -> \x7bSucceeded, Failed, Cancelled\x7d`). -/
inductive GitOpState
  | running
  | succeeded
  | failed
  | cancelled
deriving DecidableEq, Repr

/-- One tracked clone/pull operation in the per-repository in-flight
table. -/
structure GitOp where
  repoId : String
  kind : GitOpKind
  state : GitOpState
deriving DecidableEq, Repr

/-- The outcome of admitting a new git operation. -/
inductive StartResult
  | started
  | rejectedInProgress
deriving DecidableEq, Repr

/-- Modelled from the spec: per-repository mutual exclusion — a request to
start a clone/pull checks the in-flight table; if any operation on the
same repository id is still `running`, the request fails fast with
`OperationInProgress` and the table is left unchanged (the request is not
queued); otherwise a fresh `running` operation is recorded. -/
def requestGitOp (table : List GitOp) (repoId : String) (k : GitOpKind) :
    StartResult × List GitOp :=
  if table.any (fun o => o.repoId == repoId && o.state == GitOpState.running) then
    (StartResult.rejectedInProgress, table)
  else
    (StartResult.started, table ++ [⟨repoId, k, GitOpState.running⟩])

/-- The `GitPullResult` payload from `src/types/index.ts`. -/
structure GitPullResultM where
  ok : Bool
  message : Option String
  syncedAt : Option Nat
deriving DecidableEq, Repr

/-- The repository fields `repoPull` can touch (a fragment of
`GitRepository` from `src/types/index.ts`). -/
structure RepoSyncState where
  branch : Option String
  lastSyncAt : Option Nat
deriving DecidableEq, Repr

/-- What the fetch against the configured remote found. -/
inductive FetchOutcome
  | upToDate
  | fastForward (newTip : String)
  | diverged
  | conflict
deriving DecidableEq, Repr

/-- Modelled from the spec: `git_repo_pull` — fetch plus fast-forward; on
success `lastSyncAt` is refreshed and `\x7bok: true\x7d` is returned; on
non-fast-forward divergence or conflict a structured
`\x7bok: false, message\x7d` is returned (never thrown, hence a total
function into `GitPullResultM`) and the repository record is left
untouched. -/
def repoPull (repo : RepoSyncState) (outcome : FetchOutcome) (now : Nat) :
    GitPullResultM × RepoSyncState :=
  match outcome with
  | FetchOutcome.upToDate =>
      (⟨true, none, some now⟩, { repo with lastSyncAt := some now })
  | FetchOutcome.fastForward _ =>
      (⟨true, none, some now⟩, { repo with lastSyncAt := some now })
  | FetchOutcome.diverged =>
      (⟨false, some "non-fast-forward: local branch has diverged from upstream", none⟩,
        repo)
  | FetchOutcome.conflict =>
      (⟨false, some "merge conflict while pulling from remote", none⟩, repo)

/-- Network reachability (`NetworkState` in `src/types/index.ts`). -/
inductive NetworkStateM
  | online
  | offline
  | unknown
deriving DecidableEq, Repr

/-- The derived status cache (`GitRepoStatus` in `src/types/index.ts`). -/
structure GitRepoStatusM where
  repoId : String
  branch : Option String
  dirty : Bool
  ahead : Nat
  behind : Nat
  lastCheckedAt : Nat
  network : NetworkStateM
  lastError : Option String
deriving DecidableEq, Repr

/-- What probing the remote observed: fresh working-tree and upstream
facts when the network is reachable, or nothing when it is not. -/
inductive RemoteProbe
  | reachable (branch : Option String) (dirty : Bool) (ahead behind : Nat)
  | unreachable
deriving DecidableEq, Repr

/-- Modelled from the spec: `git_repo_status_check` — reconciles dirtiness
and ahead/behind counts against the remote; when the network is
unreachable it does not fail but returns the cached status with
`network := offline`, preserving the last-known branch/dirty values. -/
def repoStatusCheck (prev : GitRepoStatusM) (probe : RemoteProbe) (now : Nat) :
    GitRepoStatusM :=
  match probe with
  | RemoteProbe.reachable b d a bh =>
      { prev with
        branch := b, dirty := d, ahead := a, behind := bh,
        lastCheckedAt := now, network := NetworkStateM.online, lastError := none }
  | RemoteProbe.unreachable =>
      { prev with lastCheckedAt := now, network := NetworkStateM.offline }

/-! ## Project repository (spec-modelled) -/

/-- Display hints of a project (`ProjectDisplay` in
`src/types/index.ts`). -/
structure ProjectDisplayM where
  themeMode : Option String
  themeColor : Option String
deriving DecidableEq, Repr

/-- An IDE configuration (`IdeConfig` in `src/types/index.ts`). -/
structure IdeConfigM where
  kind : String
  name : String
  exePath : String
  args : Option (List String)
deriving DecidableEq, Repr

/-- A project record (`Project` in `src/types/index.ts`). -/
structure ProjectM where
  id : String
  name : String
  description : Option String
  projectPath : String
  display : Option ProjectDisplayM
  ideOverride : Option IdeConfigM
  updatedAt : String
deriving DecidableEq, Repr

/-- Creation input (`ProjectCreateInput` in `src/types/index.ts`). -/
structure ProjectCreateInputM where
  name : String
  description : Option String
  display : Option ProjectDisplayM
deriving DecidableEq, Repr

/-- The project table of the active workspace store, plus the id
generator. -/
structure ProjStore where
  projects : List ProjectM
  nextId : Nat
deriving DecidableEq, Repr

/-- Errors of the project CRUD commands (spec §6). -/
inductive ProjectError
  | EmptyName
  | ProjectNotFound
deriving DecidableEq, Repr

/-- Modelled from the spec: `project_create` — validates that the name is
non-empty, generates an id, computes a default project path under the
workspace root derived from the name, persists the row with the input's
fields and a populated `updatedAt` timestamp. -/
def project_create (st : ProjStore) (workspaceRoot : String)
    (input : ProjectCreateInputM) (now : String) :
    Except ProjectError (ProjectM × ProjStore) :=
  if input.name = "" then Except.error ProjectError.EmptyName
  else
    let proj : ProjectM :=
      { id := "proj-" ++ toString st.nextId
        name := input.name
        description := input.description
        projectPath := workspaceRoot ++ "/" ++ input.name
        display := input.display
        ideOverride := none
        updatedAt := now }
    Except.ok (proj, { projects := proj :: st.projects, nextId := st.nextId + 1 })

/-- Modelled from the spec: `project_get` — looks the id up in the active
store, failing with `ProjectNotFound` when it is unknown. -/
def project_get (st : ProjStore) (id : String) : Except ProjectError ProjectM :=
  match st.projects.find? (fun p => p.id == id) with
  | some p => Except.ok p
  | none => Except.error ProjectError.ProjectNotFound

/-- Partial update patch (`ProjectUpdateInput` in `src/types/index.ts`):
for each optional field, `none` means absent (leave untouched),
`some none` is an explicit null (clear the field), `some (some v)` sets
it. -/
structure ProjectUpdateInputM where
  name : Option String
  description : Option (Option String)
  display : Option (Option ProjectDisplayM)
  ideOverride : Option (Option IdeConfigM)
deriving DecidableEq, Repr

/-- Modelled from the spec: the merge of a partial patch into a project
row — only the provided fields are applied; absent fields of the patch are
untouched and an explicit null clears the optional field. -/
def applyProjectPatch (p : ProjectM) (patch : ProjectUpdateInputM) : ProjectM :=
  { p with
    name := patch.name.getD p.name
    description :=
      match patch.description with
      | none => p.description
      | some d => d
    display :=
      match patch.display with
      | none => p.display
      | some d => d
    ideOverride :=
      match patch.ideOverride with
      | none => p.ideOverride
      | some d => d }

/-- Modelled from the spec: `project_update` — fails with
`ProjectNotFound` when the id is unknown; otherwise applies the patch to
exactly the row with that id. -/
def project_update (st : ProjStore) (id : String) (patch : ProjectUpdateInputM) :
    Except ProjectError (ProjectM × ProjStore) :=
  match st.projects.find? (fun p => p.id == id) with
  | none => Except.error ProjectError.ProjectNotFound
  | some p =>
      Except.ok (applyProjectPatch p patch,
        { st with
          projects :=
            st.projects.map (fun q =>
              if q.id == id then applyProjectPatch q patch else q) })

/-! ## Directory bindings (spec-modelled) -/

/-- A directory binding row (`ProjectDirectory` in
`src/types/index.ts`). -/
structure ProjectDirectoryM where
  id : String
  projectId : String
  dirTypeId : String
  relativePath : String
  createdAt : Nat
  updatedAt : Nat
deriving DecidableEq, Repr

/-- Whether a row binds the given (project, directory type) pair. -/
def bindsPair (projectId dirTypeId : String) (r : ProjectDirectoryM) : Bool :=
  r.projectId == projectId && r.dirTypeId == dirTypeId

/-- Modelled from the spec: `project_dir_create_or_update` — if a row for
the (project, directory type) pair exists it is updated in place (new
relative path, refreshed `updatedAt`); otherwise a fresh row is
inserted. -/
def createOrUpdateProjectDir (rows : List ProjectDirectoryM)
    (projectId dirTypeId relPath : String) (now : Nat) (freshId : String) :
    List ProjectDirectoryM :=
  if rows.any (bindsPair projectId dirTypeId) then
    rows.map (fun r =>
      if bindsPair projectId dirTypeId r then
        { r with relativePath := relPath, updatedAt := now }
      else r)
  else
    rows ++ [⟨freshId, projectId, dirTypeId, relPath, now, now⟩]

/-! ## Frontend delete-repo handler (source: `ProjectWorkspaceView.vue`) -/

/-- One backend request the frontend can issue, from the `invoke` wrapper
surface in `useApi` (restricted to the commands the repository view
touches, plus the destructive commands of the full surface). -/
inductive ApiCall
  | gitRepoList (projectId : String)
  | gitRepoStatusGet (repoId : String)
  | gitRepoPull (repoId : String)
  | projectDelete (id : String)
  | fsDelete (path : String)
deriving DecidableEq, Repr

/-- Whether a request deletes backend state (there is no repository-delete
command at all in the `invoke` surface; these are the destructive commands
that do exist). -/
def isDeleteRequest : ApiCall → Bool
  | ApiCall.projectDelete _ => true
  | ApiCall.fsDelete _ => true
  | _ => false

/-- A `GitRepository` record (from `src/types/index.ts`). -/
structure GitRepositoryM where
  id : String
  projectId : String
  name : String
  path : String
  remoteUrl : Option String
  branch : Option String
  lastSyncAt : Option Nat
deriving DecidableEq, Repr

/-- The backend state the repository view can reach. -/
structure BackendState where
  repos : List GitRepositoryM
  projects : List ProjectM
  disk : Fs
deriving DecidableEq, Repr

/-- The effect of one request on backend state: the read commands of the
view (`git_repo_list`, `git_repo_status_get`) and `git_repo_pull` leave
records and disk as they are for this view's purposes; the destructive
commands mutate. -/
def applyCall (st : BackendState) : ApiCall → BackendState
  | ApiCall.gitRepoList _ => st
  | ApiCall.gitRepoStatusGet _ => st
  | ApiCall.gitRepoPull _ => st
  | ApiCall.projectDelete id =>
      { st with projects := st.projects.filter (fun p => p.id != id) }
  | ApiCall.fsDelete _ => { st with disk := ⟨[], []⟩ }

/-- The requests issued by `loadRepos` in `ProjectWorkspaceView.vue`: one
`git_repo_list`, then one `git_repo_status_get` per listed repository. -/
def loadReposCalls (projectId : String) (listedRepoIds : List String) :
    List ApiCall :=
  ApiCall.gitRepoList projectId :: listedRepoIds.map ApiCall.gitRepoStatusGet

/-- The requests issued by the `deleteRepo` handler in
`ProjectWorkspaceView.vue`: a confirmation dialog, then — on confirmation —
only `loadRepos` (the handler carries a `Backend should have a delete repo
method` note and issues no delete); on cancellation, nothing. -/
def deleteRepoCalls (confirmed : Bool) (projectId : String)
    (listedRepoIds : List String) : List ApiCall :=
  if confirmed then loadReposCalls projectId listedRepoIds else []

/-! ## Helper lemmas -/

theorem replaceAll_self (rep : List Char) :
    replaceAll pathPlaceholder rep pathPlaceholder = rep := by
  simp [replaceAll, pathPlaceholder, List.isPrefixOf]

theorem replaceAll_of_not_occurs (pat rep : List Char) (s : List Char)
    (h : hasOccurrence pat s = false) : replaceAll pat rep s = s := by
  induction s with
  | nil => simp [replaceAll]
  | cons c rest ih =>
    simp only [hasOccurrence, Bool.or_eq_false_iff] at h
    rw [replaceAll, if_neg (by simp [h.1]), ih h.2]

theorem substPath_placeholder (p : String) : substPath "{path}" p = p := by
  show (⟨replaceAll pathPlaceholder p.data pathPlaceholder⟩ : String) = p
  rw [replaceAll_self]

/-- The recent-index update of one entry preserves its path. -/
theorem updEntry_path (p : String) (t : Nat) (e : RecentEntry) :
    ((if e.path == p then { e with lastOpenedAt := t } else e) : RecentEntry).path
      = e.path := by
  split <;> rfl

/-- `initOrOpen` returns the same `WorkspaceInfo` shape in both branches. -/
theorem initOrOpen_fst (recent : List RecentEntry) (p : String) (t : Nat) :
    (initOrOpen recent p t).1 = ⟨p, workspace_db_path p, t⟩ := by
  unfold initOrOpen
  split <;> rfl

/-- After any `initOrOpen` on `p`, the recent index holds an entry for
`p`. -/
theorem initOrOpen_snd_any (recent : List RecentEntry) (p : String) (t : Nat) :
    ((initOrOpen recent p t).2).any (fun e => e.path == p) = true := by
  unfold initOrOpen
  cases ha : recent.any (fun e => e.path == p) with
  | true =>
    simp only [ha, if_true]
    rw [List.any_map]
    have hcomp : ((fun e : RecentEntry => e.path == p) ∘
        (fun e => if e.path == p then { e with lastOpenedAt := t } else e))
        = (fun e : RecentEntry => e.path == p) := by
      funext e
      simp only [Function.comp_apply, updEntry_path]
    rw [hcomp, ha]
  | false =>
    simp [ha]

/-- When an entry for `p` exists, `initOrOpen` only maps the timestamp
refresh over the index. -/
theorem initOrOpen_snd_of_any (recent : List RecentEntry) (p : String) (t : Nat)
    (h : recent.any (fun e => e.path == p) = true) :
    (initOrOpen recent p t).2 =
      recent.map (fun e => if e.path == p then { e with lastOpenedAt := t } else e) := by
  unfold initOrOpen
  simp [h]

/-- The timestamp-refresh map does not change how many entries match a
path. -/
theorem countP_updEntry (s : List RecentEntry) (p : String) (t : Nat) :
    (s.map (fun e => if e.path == p then { e with lastOpenedAt := t } else e)).countP
      (fun e => e.path == p) = s.countP (fun e => e.path == p) := by
  rw [List.countP_map]
  have hcomp : ((fun e : RecentEntry => e.path == p) ∘
      (fun e => if e.path == p then { e with lastOpenedAt := t } else e))
      = (fun e : RecentEntry => e.path == p) := by
    funext e
    simp only [Function.comp_apply, updEntry_path]
  rw [hcomp]

/-- After one `initOrOpen` on `p`, exactly one entry for `p` exists
(given the index held at most one before). -/
theorem countP_after_initOrOpen (recent : List RecentEntry) (p : String) (t : Nat)
    (hinv : recent.countP (fun e => e.path == p) ≤ 1) :
    ((initOrOpen recent p t).2).countP (fun e => e.path == p) = 1 := by
  unfold initOrOpen
  cases ha : recent.any (fun e => e.path == p) with
  | true =>
    simp only [ha, if_true]
    rw [countP_updEntry]
    have hpos : 0 < recent.countP (fun e => e.path == p) := by
      rw [List.countP_pos_iff]
      rcases List.any_eq_true.mp ha with ⟨a, hm, hp⟩
      exact ⟨a, hm, hp⟩
    omega
  | false =>
    have h0 : recent.countP (fun e => e.path == p) = 0 := by
      rw [List.countP_eq_zero]
      intro a hm
      exact (List.any_eq_false.mp ha) a hm
    simp [ha, List.countP_append, h0]

/-- The in-place binding update preserves the (project, directory type)
pair of every row. -/
theorem bindsPair_upd (p d pid dt rp : String) (t : Nat) (r : ProjectDirectoryM) :
    bindsPair p d
      (if bindsPair pid dt r then { r with relativePath := rp, updatedAt := t } else r)
      = bindsPair p d r := by
  split <;> rfl

/-- Mapping the in-place binding update over the table does not change how
many rows bind any pair. -/
theorem countP_bindsPair_upd (rows : List ProjectDirectoryM)
    (p d pid dt rp : String) (t : Nat) :
    (rows.map (fun r =>
      if bindsPair pid dt r then { r with relativePath := rp, updatedAt := t }
      else r)).countP (bindsPair p d)
      = rows.countP (bindsPair p d) := by
  rw [List.countP_map]
  have hcomp : (bindsPair p d ∘ fun r =>
      if bindsPair pid dt r then { r with relativePath := rp, updatedAt := t }
      else r) = bindsPair p d := by
    funext r
    simp only [Function.comp_apply, bindsPair_upd]
  rw [hcomp]

/-- One bind leaves exactly one row for the bound pair. -/
theorem createOrUpdate_countP_pair (rows : List ProjectDirectoryM)
    (pid dt rp : String) (t : Nat) (fid : String)
    (hinv : rows.countP (bindsPair pid dt) ≤ 1) :
    (createOrUpdateProjectDir rows pid dt rp t fid).countP (bindsPair pid dt)
      = 1 := by
  unfold createOrUpdateProjectDir
  cases ha : rows.any (bindsPair pid dt) with
  | true =>
    simp only [ha, if_true]
    rw [countP_bindsPair_upd]
    have hpos : 0 < rows.countP (bindsPair pid dt) := by
      rw [List.countP_pos_iff]
      rcases List.any_eq_true.mp ha with ⟨a, hm, hp⟩
      exact ⟨a, hm, hp⟩
    omega
  | false =>
    have h0 : rows.countP (bindsPair pid dt) = 0 := by
      rw [List.countP_eq_zero]
      intro a hm
      exact (List.any_eq_false.mp ha) a hm
    simp [ha, List.countP_append, h0, List.countP_cons, bindsPair]

/-- One bind preserves the at-most-one-row-per-pair invariant for every
pair. -/
theorem createOrUpdate_inv (rows : List ProjectDirectoryM)
    (pid dt rp : String) (t : Nat) (fid : String)
    (hinv : ∀ p d : String, rows.countP (bindsPair p d) ≤ 1) :
    ∀ p d : String,
      (createOrUpdateProjectDir rows pid dt rp t fid).countP (bindsPair p d)
        ≤ 1 := by
  intro p d
  unfold createOrUpdateProjectDir
  cases ha : rows.any (bindsPair pid dt) with
  | true =>
    simp only [ha, if_true]
    rw [countP_bindsPair_upd]
    exact hinv p d
  | false =>
    simp only [ha, Bool.false_eq_true, if_false]
    rw [List.countP_append]
    have hone : ([(⟨fid, pid, dt, rp, t, t⟩ : ProjectDirectoryM)]).countP
        (bindsPair p d)
        = if bindsPair p d ⟨fid, pid, dt, rp, t, t⟩ then 1 else 0 := by
      simp [List.countP_cons]
    rw [hone]
    by_cases hb : bindsPair p d ⟨fid, pid, dt, rp, t, t⟩ = true
    · have hpd : pid = p ∧ dt = d := by
        simpa [bindsPair] using hb
      have h0 : rows.countP (bindsPair p d) = 0 := by
        rw [List.countP_eq_zero]
        intro a hm
        rw [← hpd.1, ← hpd.2]
        exact (List.any_eq_false.mp ha) a hm
      simp [h0, hb]
    · have hle := hinv p d
      simp only [Bool.not_eq_true] at hb
      simp [hb]
      omega

/-- After one bind, the table holds a row for the bound pair. -/
theorem createOrUpdate_any (rows : List ProjectDirectoryM)
    (pid dt rp : String) (t : Nat) (fid : String)
    (hinv : rows.countP (bindsPair pid dt) ≤ 1) :
    (createOrUpdateProjectDir rows pid dt rp t fid).any (bindsPair pid dt)
      = true := by
  have h1 := createOrUpdate_countP_pair rows pid dt rp t fid hinv
  rw [List.any_eq_true]
  exact List.countP_pos_iff.mp (by omega)

/-! ## Claim theorems -/

/-- C8: for every executable, argument template and target path (spaces
and shell metacharacters included), the IDE launcher passes the executable
through unchanged, turns each template argument into exactly one discrete
process argument by substituting the target path for the `\x7bpath\x7d`
placeholder only (a template argument without the placeholder is passed
verbatim), and for the template consisting of the bare placeholder the
spawned call receives the unmodified path as a single argument; the spawn
request is an executable plus an argument list, never a concatenated shell
string. -/
theorem ide_launch_injection_guard (exe p : String) (tmpl : List String) :
    (open_in_ide exe tmpl p).exe = exe ∧
    (open_in_ide exe tmpl p).args = tmpl.map (fun a => substPath a p) ∧
    open_in_ide exe ["{path}"] p = ⟨exe, [p]⟩ ∧
    (∀ a : String, hasOccurrence pathPlaceholder a.data = false →
      substPath a p = a) := by
  refine ⟨rfl, rfl, ?_, ?_⟩
  · simp [open_in_ide, substPath_placeholder]
  · intro a ha
    show (⟨replaceAll pathPlaceholder p.data a.data⟩ : String) = a
    rw [replaceAll_of_not_occurs _ _ _ ha]

/-- Witness for C8: the template `["\x7bpath\x7d"]` launched against a path
with spaces and shell metacharacters yields that path as one unmodified
argument, and a placeholder-free argument is passed verbatim. -/
theorem ide_launch_injection_guard_witness :
    open_in_ide "code" ["{path}"] "/home/u/My Projects/a;b && $(rm x)" =
      ⟨"code", ["/home/u/My Projects/a;b && $(rm x)"]⟩ ∧
    substPath "--new-window" "/home/u/My Projects/a;b && $(rm x)" =
      "--new-window" := by
  have h := ide_launch_injection_guard "code" "/home/u/My Projects/a;b && $(rm x)"
    ["{path}"]
  exact ⟨h.2.2.1, h.2.2.2 "--new-window" (by decide)⟩

/-- C1: for every path that does not resolve to a descendant of the
project root — whatever the depth of `..` segments and whether or not it
is an absolute-path injection — each of the five filesystem commands
(`fs_tree`, `fs_read_text`, `fs_create_dir`, `fs_delete`, `fs_rename` in
either argument position) fails with `PathOutsideProject`, touches no
on-disk path (empty access trace) and leaves the filesystem unchanged. -/
theorem fs_path_containment (root : List String) (p : RawPath) (fs : Fs)
    (h : containedIn root p = false) :
    fs_tree root p fs = (Except.error FsError.PathOutsideProject, []) ∧
    fs_read_text root p fs = (Except.error FsError.PathOutsideProject, []) ∧
    fs_create_dir root p fs = (Except.error FsError.PathOutsideProject, [], fs) ∧
    fs_delete root p fs = (Except.error FsError.PathOutsideProject, [], fs) ∧
    (∀ q : RawPath,
      fs_rename root p q fs = (Except.error FsError.PathOutsideProject, [], fs)) ∧
    (∀ q : RawPath,
      fs_rename root q p fs = (Except.error FsError.PathOutsideProject, [], fs)) := by
  unfold containedIn at h
  cases hr : resolveUnder root p with
  | none =>
    refine ⟨?_, ?_, ?_, ?_, ?_, ?_⟩
    · simp [fs_tree, hr]
    · simp [fs_read_text, hr]
    · simp [fs_create_dir, hr]
    · simp [fs_delete, hr]
    · intro q; simp [fs_rename, hr]
    · intro q
      cases hq : resolveUnder root q with
      | none => simp [fs_rename, hq]
      | some qo =>
        cases hpo : root.isPrefixOf qo with
        | false => simp [fs_rename, hq, hpo]
        | true => simp [fs_rename, hq, hpo, hr]
  | some qres =>
    rw [hr] at h
    simp at h
    refine ⟨?_, ?_, ?_, ?_, ?_, ?_⟩
    · simp [fs_tree, hr, h]
    · simp [fs_read_text, hr, h]
    · simp [fs_create_dir, hr, h]
    · simp [fs_delete, hr, h]
    · intro q; simp [fs_rename, hr, h]
    · intro q
      cases hq : resolveUnder root q with
      | none => simp [fs_rename, hq]
      | some qo =>
        cases hpo : root.isPrefixOf qo with
        | false => simp [fs_rename, hq, hpo]
        | true => simp [fs_rename, hq, hpo, hr, h]

/-- C2: opening the same workspace directory twice in succession yields
`WorkspaceInfo` values with the same derived `dbPath`, leaves exactly one
entry for that path in the recent-workspaces index, and the second open
changes nothing about the index except that entry's `lastOpenedAt`
timestamp (the second index is exactly the first with the timestamp
refresh mapped over it). -/
theorem workspace_initOrOpen_idempotent (recent : List RecentEntry) (p : String)
    (t1 t2 : Nat) (hinv : recent.countP (fun e => e.path == p) ≤ 1) :
    (initOrOpen recent p t1).1.dbPath
        = (initOrOpen (initOrOpen recent p t1).2 p t2).1.dbPath ∧
    ((initOrOpen (initOrOpen recent p t1).2 p t2).2).countP
        (fun e => e.path == p) = 1 ∧
    (initOrOpen (initOrOpen recent p t1).2 p t2).2 =
      ((initOrOpen recent p t1).2).map
        (fun e => if e.path == p then { e with lastOpenedAt := t2 } else e) := by
  have hA := initOrOpen_snd_any recent p t1
  have hsnd := initOrOpen_snd_of_any (initOrOpen recent p t1).2 p t2 hA
  refine ⟨?_, ?_, hsnd⟩
  · rw [initOrOpen_fst, initOrOpen_fst]
  · rw [hsnd, countP_updEntry]
    exact countP_after_initOrOpen recent p t1 hinv

/-- Witness for C2: opening the directory `/home/u/ws` twice starting from
an empty recent index. -/
theorem workspace_initOrOpen_idempotent_witness :
    (initOrOpen [] "/home/u/ws" 1).1.dbPath
        = (initOrOpen (initOrOpen [] "/home/u/ws" 1).2 "/home/u/ws" 2).1.dbPath ∧
    ((initOrOpen (initOrOpen [] "/home/u/ws" 1).2 "/home/u/ws" 2).2).countP
        (fun e => e.path == "/home/u/ws") = 1 ∧
    (initOrOpen (initOrOpen [] "/home/u/ws" 1).2 "/home/u/ws" 2).2 =
      ((initOrOpen [] "/home/u/ws" 1).2).map
        (fun e => if e.path == "/home/u/ws" then { e with lastOpenedAt := 2 } else e) :=
  workspace_initOrOpen_idempotent [] "/home/u/ws" 1 2 (by decide)

/-- C3: pulling a repository whose local branch has diverged from its
upstream returns a structured `\x7bok: false, message\x7d` value (the pull
command is a total function into `GitPullResultM`, it does not throw) with
a non-empty message, and leaves the repository record — in particular
`lastSyncAt` — unchanged. -/
theorem repo_pull_divergence_structured (repo : RepoSyncState) (now : Nat) :
    (repoPull repo FetchOutcome.diverged now).1.ok = false ∧
    (repoPull repo FetchOutcome.diverged now).1.message.isSome = true ∧
    (repoPull repo FetchOutcome.diverged now).1.message ≠ some "" ∧
    (repoPull repo FetchOutcome.diverged now).2 = repo ∧
    (repoPull repo FetchOutcome.diverged now).2.lastSyncAt = repo.lastSyncAt := by
  refine ⟨rfl, rfl, ?_, rfl, rfl⟩
  show (some "non-fast-forward: local branch has diverged from upstream"
    : Option String) ≠ some ""
  decide

/-- C4: when no operation is active on a repository id, a first pull
request is admitted as the single `running` operation and a second request
issued while it is still in flight is rejected with `OperationInProgress`,
leaving the in-flight table exactly as it was after the first request (the
second request is never queued); exactly one `running` operation for that
id exists throughout. -/
theorem git_op_mutual_exclusion (table : List GitOp) (r : String)
    (k1 k2 : GitOpKind)
    (h : table.any (fun o => o.repoId == r && o.state == GitOpState.running)
      = false) :
    (requestGitOp table r k1).1 = StartResult.started ∧
    (requestGitOp (requestGitOp table r k1).2 r k2).1
        = StartResult.rejectedInProgress ∧
    (requestGitOp (requestGitOp table r k1).2 r k2).2 = (requestGitOp table r k1).2 ∧
    ((requestGitOp table r k1).2).countP
        (fun o => o.repoId == r && o.state == GitOpState.running) = 1 := by
  have h1 : requestGitOp table r k1
      = (StartResult.started, table ++ [⟨r, k1, GitOpState.running⟩]) := by
    unfold requestGitOp
    simp [h]
  have hany : (table ++ [(⟨r, k1, GitOpState.running⟩ : GitOp)]).any
      (fun o => o.repoId == r && o.state == GitOpState.running) = true := by
    simp [List.any_append]
  have h0 : table.countP
      (fun o => o.repoId == r && o.state == GitOpState.running) = 0 := by
    rw [List.countP_eq_zero]
    intro a hm
    exact (List.any_eq_false.mp h) a hm
  refine ⟨by rw [h1], ?_, ?_, ?_⟩
  · rw [h1]
    unfold requestGitOp
    simp [hany]
  · rw [h1]
    unfold requestGitOp
    simp [hany]
  · rw [h1]
    simp [List.countP_append, h0]

/-- Witness for C4: two back-to-back pull requests for repository `r1`
starting from an empty in-flight table. -/
theorem git_op_mutual_exclusion_witness :
    (requestGitOp [] "r1" GitOpKind.pull).1 = StartResult.started ∧
    (requestGitOp (requestGitOp [] "r1" GitOpKind.pull).2 "r1" GitOpKind.pull).1
        = StartResult.rejectedInProgress ∧
    (requestGitOp (requestGitOp [] "r1" GitOpKind.pull).2 "r1" GitOpKind.pull).2
        = (requestGitOp [] "r1" GitOpKind.pull).2 ∧
    ((requestGitOp [] "r1" GitOpKind.pull).2).countP
        (fun o => o.repoId == "r1" && o.state == GitOpState.running) = 1 :=
  git_op_mutual_exclusion [] "r1" GitOpKind.pull GitOpKind.pull (by decide)

/-- C7: a status check while the network is unreachable does not fail (the
check is a total function into `GitRepoStatusM`): it returns a status whose
`network` field is `offline` and whose `branch` and `dirty` fields are the
values preserved from the last successful check. -/
theorem repo_status_check_offline (prev : GitRepoStatusM) (now : Nat) :
    (repoStatusCheck prev RemoteProbe.unreachable now).network
        = NetworkStateM.offline ∧
    (repoStatusCheck prev RemoteProbe.unreachable now).branch = prev.branch ∧
    (repoStatusCheck prev RemoteProbe.unreachable now).dirty = prev.dirty ∧
    (repoStatusCheck prev RemoteProbe.unreachable now).repoId = prev.repoId :=
  ⟨rfl, rfl, rfl, rfl⟩

/-- C5: binding the same (project, directoryType) pair twice leaves
exactly one `ProjectDirectory` row for that pair — the second bind updates
the existing row in place (the table after the second bind is exactly the
table after the first with the in-place update mapped over it, so no row
is inserted) — and every bind preserves the invariant that any pair is
bound by at most one row. -/
theorem bind_directory_idempotent_upsert (rows : List ProjectDirectoryM)
    (pid dt rp1 rp2 : String) (t1 t2 : Nat) (id1 id2 : String)
    (hinv : ∀ p d : String, rows.countP (bindsPair p d) ≤ 1) :
    (∀ p d : String,
      (createOrUpdateProjectDir (createOrUpdateProjectDir rows pid dt rp1 t1 id1)
        pid dt rp2 t2 id2).countP (bindsPair p d) ≤ 1) ∧
    (createOrUpdateProjectDir (createOrUpdateProjectDir rows pid dt rp1 t1 id1)
        pid dt rp2 t2 id2).countP (bindsPair pid dt) = 1 ∧
    createOrUpdateProjectDir (createOrUpdateProjectDir rows pid dt rp1 t1 id1)
        pid dt rp2 t2 id2
      = (createOrUpdateProjectDir rows pid dt rp1 t1 id1).map
          (fun r =>
            if bindsPair pid dt r then { r with relativePath := rp2, updatedAt := t2 }
            else r) := by
  have hinv1 := createOrUpdate_inv rows pid dt rp1 t1 id1 hinv
  have hany := createOrUpdate_any rows pid dt rp1 t1 id1 (hinv pid dt)
  have hmap : ∀ rows' : List ProjectDirectoryM,
      rows'.any (bindsPair pid dt) = true →
      createOrUpdateProjectDir rows' pid dt rp2 t2 id2
        = rows'.map (fun r =>
            if bindsPair pid dt r then { r with relativePath := rp2, updatedAt := t2 }
            else r) := by
    intro rows' h
    unfold createOrUpdateProjectDir
    simp [h]
  exact ⟨createOrUpdate_inv _ pid dt rp2 t2 id2 hinv1,
    createOrUpdate_countP_pair _ pid dt rp2 t2 id2 (hinv1 pid dt), hmap _ hany⟩

/-- Witness for C5: binding the pair (`p1`, `docs`) twice starting from an
empty table yields exactly one row, updated in place. -/
theorem bind_directory_idempotent_upsert_witness :
    (createOrUpdateProjectDir (createOrUpdateProjectDir [] "p1" "docs" "docsA" 1 "d1")
        "p1" "docs" "docsB" 2 "d2").countP (bindsPair "p1" "docs") = 1 ∧
    createOrUpdateProjectDir (createOrUpdateProjectDir [] "p1" "docs" "docsA" 1 "d1")
        "p1" "docs" "docsB" 2 "d2"
      = (createOrUpdateProjectDir [] "p1" "docs" "docsA" 1 "d1").map
          (fun r =>
            if bindsPair "p1" "docs" r then { r with relativePath := "docsB", updatedAt := 2 }
            else r) :=
  (bind_directory_idempotent_upsert [] "p1" "docs" "docsA" "docsB" 1 2 "d1" "d2"
    (fun _ _ => by simp)).2

/-- C6: creating a project from a valid input (non-empty name) and then
getting the returned id yields a record whose name, description and
display fields equal the input's, with the generated id and the
`updatedAt` timestamp populated (non-empty). -/
theorem project_create_get_roundtrip (st : ProjStore) (root : String)
    (input : ProjectCreateInputM) (now : String)
    (hname : input.name ≠ "") (hnow : now ≠ "") :
    ∃ proj st', project_create st root input now = Except.ok (proj, st') ∧
      project_get st' proj.id = Except.ok proj ∧
      proj.name = input.name ∧ proj.description = input.description ∧
      proj.display = input.display ∧ proj.id ≠ "" ∧ proj.updatedAt ≠ "" := by
  unfold project_create
  rw [if_neg hname]
  refine ⟨_, _, rfl, ?_, rfl, rfl, rfl, ?_, hnow⟩
  · unfold project_get
    rw [List.find?_cons_of_pos _ (by simp)]
  · intro hcon
    have hlen := congrArg String.length hcon
    rw [String.length_append] at hlen
    have h5 : ("proj-" : String).length = 5 := rfl
    have h0 : ("" : String).length = 0 := rfl
    rw [h5, h0] at hlen
    omega

/-- Witness for C6: creating `My App` in an empty store and reading it
back. -/
theorem project_create_get_roundtrip_witness :
    ∃ proj st',
      project_create ⟨[], 0⟩ "/ws" ⟨"My App", some "a demo", none⟩ "2026-10-12"
        = Except.ok (proj, st') ∧
      project_get st' proj.id = Except.ok proj ∧
      proj.name = "My App" ∧ proj.description = some "a demo" ∧
      proj.display = none ∧ proj.id ≠ "" ∧ proj.updatedAt ≠ "" :=
  project_create_get_roundtrip ⟨[], 0⟩ "/ws" ⟨"My App", some "a demo", none⟩
    "2026-10-12" (by decide) (by decide)

/-- C9: updating an existing project applies only the fields present in
the patch — the patched record keeps `id`, `projectPath` and `updatedAt`,
every patch field given as absent leaves the project's field at its
previous value, and an explicit null supplied for an optional field clears
that field; the stored row becomes exactly the patched record. -/
theorem project_update_partial_semantics (st : ProjStore) (id : String)
    (patch : ProjectUpdateInputM) (p : ProjectM)
    (h : project_get st id = Except.ok p) :
    (∃ st', project_update st id patch
      = Except.ok (applyProjectPatch p patch, st')) ∧
    (applyProjectPatch p patch).id = p.id ∧
    (applyProjectPatch p patch).projectPath = p.projectPath ∧
    (applyProjectPatch p patch).updatedAt = p.updatedAt ∧
    (patch.name = none → (applyProjectPatch p patch).name = p.name) ∧
    (patch.description = none →
      (applyProjectPatch p patch).description = p.description) ∧
    (patch.description = some none →
      (applyProjectPatch p patch).description = none) ∧
    (patch.display = none → (applyProjectPatch p patch).display = p.display) ∧
    (patch.display = some none → (applyProjectPatch p patch).display = none) ∧
    (patch.ideOverride = none →
      (applyProjectPatch p patch).ideOverride = p.ideOverride) ∧
    (patch.ideOverride = some none →
      (applyProjectPatch p patch).ideOverride = none) := by
  have hf : st.projects.find? (fun q => q.id == id) = some p := by
    unfold project_get at h
    cases hf : st.projects.find? (fun q => q.id == id) with
    | none => rw [hf] at h; exact absurd h (by simp)
    | some q =>
      rw [hf] at h
      injection h with h'
      rw [h']
  have hupd : project_update st id patch
      = Except.ok (applyProjectPatch p patch,
          { st with projects := st.projects.map (fun q =>
              if q.id == id then applyProjectPatch q patch else q) }) := by
    unfold project_update
    rw [hf]
  refine ⟨⟨_, hupd⟩, rfl, rfl, rfl, ?_, ?_, ?_, ?_, ?_, ?_, ?_⟩
  all_goals intro he
  all_goals simp [applyProjectPatch, he]

/-- Witness for C9: patching only the description of a stored project with
an explicit null clears it and leaves name, path, display, override and
timestamp untouched. -/
theorem project_update_partial_semantics_witness :
    (∃ st', project_update
        ⟨[⟨"proj-0", "A", some "old", "/ws/A", none, none, "t0"⟩], 1⟩ "proj-0"
        ⟨none, some none, none, none⟩
      = Except.ok (applyProjectPatch
          ⟨"proj-0", "A", some "old", "/ws/A", none, none, "t0"⟩
          ⟨none, some none, none, none⟩, st')) ∧
    (applyProjectPatch ⟨"proj-0", "A", some "old", "/ws/A", none, none, "t0"⟩
        ⟨none, some none, none, none⟩).description = none ∧
    (applyProjectPatch ⟨"proj-0", "A", some "old", "/ws/A", none, none, "t0"⟩
        ⟨none, some none, none, none⟩).name = "A" ∧
    (applyProjectPatch ⟨"proj-0", "A", some "old", "/ws/A", none, none, "t0"⟩
        ⟨none, some none, none, none⟩).updatedAt = "t0" := by
  have h := project_update_partial_semantics
    ⟨[⟨"proj-0", "A", some "old", "/ws/A", none, none, "t0"⟩], 1⟩ "proj-0"
    ⟨none, some none, none, none⟩
    ⟨"proj-0", "A", some "old", "/ws/A", none, none, "t0"⟩ (by rfl)
  exact ⟨h.1, h.2.2.2.2.2.2.1 rfl, h.2.2.2.2.1 rfl, h.2.2.2.1⟩

/-- Folding the per-repository status reads over the backend changes
nothing. -/
theorem gitStatusGet_foldl (l : List String) (st : BackendState) :
    (l.map ApiCall.gitRepoStatusGet).foldl applyCall st = st := by
  induction l generalizing st with
  | nil => rfl
  | cons a rest ih => simpa [applyCall] using ih st

/-- C10: the `deleteRepo` handler of the project workspace view — whether
or not the user confirms — issues no backend delete request at all (its
request trace contains zero delete requests; on confirmation it only
re-fetches the repository list and statuses), and replaying its trace
against any backend state leaves every `GitRepository` record, project and
on-disk state unchanged. -/
theorem delete_repo_is_read_only (confirmed : Bool) (pid : String)
    (rs : List String) (st : BackendState) :
    (deleteRepoCalls confirmed pid rs).countP isDeleteRequest = 0 ∧
    (deleteRepoCalls confirmed pid rs).foldl applyCall st = st := by
  cases confirmed with
  | false => simp [deleteRepoCalls]
  | true =>
    constructor
    · simp only [deleteRepoCalls, if_true, loadReposCalls, List.countP_cons]
      rw [List.countP_map]
      have hcomp : (isDeleteRequest ∘ ApiCall.gitRepoStatusGet) = fun _ => false := by
        funext x
        rfl
      rw [hcomp]
      simp [isDeleteRequest]
    · simp only [deleteRepoCalls, if_true, loadReposCalls, List.foldl_cons]
      have h1 : applyCall st (ApiCall.gitRepoList pid) = st := rfl
      rw [h1, gitStatusGet_foldl]

/-- Witness for C1: under the root `/home/user/ws/proj`, the traversal
`../../other` and the absolute injection `/etc/passwd` both escape and the
commands fail with `PathOutsideProject` without touching the disk. -/
theorem fs_path_containment_witness :
    containedIn ["home", "user", "ws", "proj"] ⟨false, ["..", "..", "other"]⟩ = false ∧
    fs_tree ["home", "user", "ws", "proj"] ⟨false, ["..", "..", "other"]⟩
        ⟨[["home", "user", "ws", "proj"]], []⟩ =
      (Except.error FsError.PathOutsideProject, []) ∧
    containedIn ["home", "user", "ws", "proj"] ⟨true, ["etc", "passwd"]⟩ = false ∧
    fs_read_text ["home", "user", "ws", "proj"] ⟨true, ["etc", "passwd"]⟩
        ⟨[["home", "user", "ws", "proj"]], []⟩ =
      (Except.error FsError.PathOutsideProject, []) := by
  refine ⟨by decide, ?_, by decide, ?_⟩
  · exact (fs_path_containment ["home", "user", "ws", "proj"]
      ⟨false, ["..", "..", "other"]⟩ ⟨[["home", "user", "ws", "proj"]], []⟩
      (by decide)).1
  · exact (fs_path_containment ["home", "user", "ws", "proj"]
      ⟨true, ["etc", "passwd"]⟩ ⟨[["home", "user", "ws", "proj"]], []⟩
      (by decide)).2.1

end WorkNZ
